import Mathlib

/-!
Shallow embedding of `src/python/parse_rr_companion.py`.

Strings are modelled as `List Char` (`Line`); Python regex searches are
modelled as explicit leftmost scans.  The regexes of the source contain no
genuinely ambiguous backtracking (all repeated classes are disjoint from what
follows), so each is a deterministic function of the line.  `\d` and `\s` are
modelled over ASCII, which is what the corpus contains.  Python `float` values
are modelled as rationals (`ℚ`); the decimal strings the parser feeds to
`float` are exact decimals, so nothing in the claims depends on rounding.
-/

namespace RR

abbrev Line := List Char

/-- ASCII decimal digit, the `\d` of the source regexes. -/
def isDigitChar (c : Char) : Bool := 48 ≤ c.toNat && c.toNat ≤ 57

/-- Python whitespace (`\s`, `str.strip`): space, tab, newline, CR, VT, FF. -/
def isWSChar (c : Char) : Bool :=
  (c == ' ') || (c == '\t') || (c == '\n') || (c == '\r') ||
  (c.toNat == 11) || (c.toNat == 12)

/-- Python `str.strip()`. -/
def pyStrip (l : Line) : Line :=
  ((l.dropWhile isWSChar).reverse.dropWhile isWSChar).reverse

/-- Python `int()` on a digit string. -/
def digitsToNat (l : Line) : Nat :=
  l.foldl (fun n c => 10 * n + (c.toNat - 48)) 0

/-- Decimal rendering, fuel-driven so the kernel can evaluate it. -/
def natToCharsAux (fuel : Nat) (n : Nat) : List Char :=
  match fuel with
  | 0 => []
  | fuel + 1 =>
    if n < 10 then [Char.ofNat (48 + n)]
    else natToCharsAux fuel (n / 10) ++ [Char.ofNat (48 + n % 10)]

/-- Decimal rendering of a natural number, Python `str(n)` / `f"{n}"`. -/
def natToChars (n : Nat) : List Char := natToCharsAux (n + 1) n

/-- Python `f"{n:02d}"` (for the values that occur here, `n ≤ 9999`). -/
def pad2 (n : Nat) : List Char :=
  if n < 10 then '0' :: natToChars n else natToChars n

/-- `qstr(year, q) = f"{year}-{q:02d}"` (line 43-44 of the source). -/
def qstr (year q : Nat) : Line := natToChars year ++ '-' :: pad2 q

/-- `parse_sign` (line 47-50): `-` and the dash/minus variants give `-1`. -/
def parse_sign (c : Char) : ℚ :=
  if c = '-' ∨ c.toNat = 0x2013 ∨ c.toNat = 0x2014 ∨ c.toNat = 0x2212 then -1 else 1

/-- The sign-glyph class of `RE_AMOUNT` and of `is_structural` line 72:
`+`, `-`, en dash, em dash, minus sign. -/
def isSignChar (c : Char) : Bool :=
  (c == '+') || (c == '-') || (c.toNat == 0x2013) || (c.toNat == 0x2014) ||
  (c.toNat == 0x2212)

/-- Python `float` on the comma-stripped group of `RE_AMOUNT`.  Total model:
on the well-formed decimals the regex group produces (`digits`, one optional
dot) it agrees with `float`; Python raises on malformed strings, which no
claim exercises. -/
def parseDec (l : Line) : ℚ :=
  let l := l.filter (fun c => c ≠ ',')
  let intPart := l.takeWhile (fun c => c ≠ '.')
  let frac := (l.dropWhile (fun c => c ≠ '.')).drop 1
  (digitsToNat intPart : ℚ) + (digitsToNat frac : ℚ) / (10 ^ frac.length : ℚ)

/-- `w.isPrefixOf l` then drop it. -/
def tryDrop (w : Line) (l : Line) : Option Line :=
  if w.isPrefixOf l then some (l.drop w.length) else none

/-- First word of `ws` that is a prefix of `l`, with the rest of `l`.
The alternations in the source regexes are mutually non-prefix, so
first-match models Python's alternation order exactly. -/
def tryAlt (ws : List Line) (l : Line) : Option (Line × Line) :=
  match ws with
  | [] => none
  | w :: rest =>
    match tryDrop w l with
    | some r => some (w, r)
    | none => tryAlt rest l

/-- Python substring containment (`pat in l`). -/
def containsL (pat : Line) : Line → Bool
  | [] => pat.isPrefixOf ([] : Line)
  | c :: rest => pat.isPrefixOf (c :: rest) || containsL pat rest

/-- `RE_PAGE_NUM.match(s)`: `^\d{1,3}$`, the whole (stripped) line is one to
three digits. -/
def isPageNum (l : Line) : Bool :=
  decide (1 ≤ l.length) && decide (l.length ≤ 3) && l.all isDigitChar

/-- `RE_QUARTER` (`(\d{4})Q(\d)`) anchored at the head of `l`:
year and quarter digit. -/
def quarterHere (l : Line) : Option (Nat × Nat) :=
  match l with
  | d1 :: d2 :: d3 :: d4 :: cq :: d5 :: _ =>
    if isDigitChar d1 && isDigitChar d2 && isDigitChar d3 && isDigitChar d4 &&
       (cq == 'Q') && isDigitChar d5
    then some (digitsToNat [d1, d2, d3, d4], d5.toNat - 48) else none
  | _ => none

/-- `RE_QUARTER.search`: leftmost match, with its start position. -/
def findQuarterAux : Line → Nat → Option (Nat × Nat × Nat)
  | [], _ => none
  | c :: rest, pos =>
    match quarterHere (c :: rest) with
    | some (y, q) => some (pos, y, q)
    | none => findQuarterAux rest (pos + 1)

def findQuarter (l : Line) : Option (Nat × Nat × Nat) := findQuarterAux l 0

/-- `RE_AMOUNT` (`([+–—−-])\$?([\d,.]+)\s+billion`) anchored at the head:
sign glyph and the numeric group.  `[\d,.]`, `\s` and `billion` are pairwise
disjoint at their boundaries, so greedy matching is deterministic. -/
def amountHere (l : Line) : Option (Char × Line) :=
  match l with
  | [] => none
  | c :: rest =>
    if isSignChar c then
      let rest2 := match rest with
        | '$' :: r => r
        | _ => rest
      let num := rest2.takeWhile (fun d => isDigitChar d || d == ',' || d == '.')
      let after := rest2.dropWhile (fun d => isDigitChar d || d == ',' || d == '.')
      let ws := after.takeWhile isWSChar
      let after2 := after.dropWhile isWSChar
      if num ≠ [] ∧ ws ≠ [] ∧ ("billion".data).isPrefixOf after2
      then some (c, num) else none
    else none

/-- `RE_AMOUNT.search`: leftmost match with start position, sign glyph and
numeric group. -/
def findAmountAux : Line → Nat → Option (Nat × Char × Line)
  | [], _ => none
  | c :: rest, pos =>
    match amountHere (c :: rest) with
    | some (sgn, num) => some (pos, sgn, num)
    | none => findAmountAux rest (pos + 1)

def findAmount (l : Line) : Option (Nat × Char × Line) := findAmountAux l 0

/-- `RE_CATEGORY` anchored at the head: `\((Endogenous|Exogenous)[;:,]\s*`
`(Spending-driven|Countercyclical|Deficit-driven|Long-run)\)`.
Returns (group 1 = exogeneity word, group 2 = category word). -/
def categoryHere (l : Line) : Option (Line × Line) :=
  match l with
  | '(' :: r =>
    match tryAlt [("Endogenous".data), ("Exogenous".data)] r with
    | none => none
    | some (exo, r1) =>
      match r1 with
      | sep :: r2 =>
        if sep = ';' ∨ sep = ':' ∨ sep = ',' then
          match tryAlt [("Spending-driven".data), ("Countercyclical".data),
                        ("Deficit-driven".data), ("Long-run".data)]
                       (r2.dropWhile isWSChar) with
          | none => none
          | some (cat, r4) =>
            match r4 with
            | ')' :: _ => some (exo, cat)
            | _ => none
        else none
      | [] => none
  | _ => none

/-- `RE_CATEGORY.search`: leftmost match, groups only (the parser never uses
its position beyond `s.startswith("(")`, checked separately). -/
def findCategory : Line → Option (Line × Line)
  | [] => none
  | c :: rest =>
    match categoryHere (c :: rest) with
    | some r => some r
    | none => findCategory rest

/-- `parse_date_signed` (lines 30-40): search `(\d{1,2})/(\d{1,2})/(\d{2,4})`
anchored at the head.  Greedy `{1,2}` with backtracking against the following
`/` succeeds exactly when the digit run has length 1 or 2; `{2,4}` has nothing
after it, so it takes `min(run, 4)` digits.  Returns month, day, and the year
digit string. -/
def mdyHere (l : Line) : Option (Nat × Nat × Line) :=
  let d1 := l.takeWhile isDigitChar
  if d1.length = 0 ∨ d1.length > 2 then none else
  match l.drop d1.length with
  | '/' :: l2 =>
    let d2 := l2.takeWhile isDigitChar
    if d2.length = 0 ∨ d2.length > 2 then none else
    (match l2.drop d2.length with
     | '/' :: l3 =>
       let d3 := l3.takeWhile isDigitChar
       if d3.length < 2 then none
       else some (digitsToNat d1, digitsToNat d2, d3.take 4)
     | _ => none)
  | _ => none

/-- `re.search` of the M/D/Y pattern: leftmost match. -/
def mdyFind : Line → Option (Nat × Nat × Line)
  | [] => none
  | c :: rest =>
    match mdyHere (c :: rest) with
    | some r => some r
    | none => mdyFind rest

/-- `parse_date_signed` (lines 30-40).  Output `f"{year_full}-{month:02d}-{day:02d}"`,
falling back to `raw.strip()` when the date pattern is absent. -/
def parse_date_signed (raw : Line) : Line :=
  match mdyFind raw with
  | none => pyStrip raw
  | some (m, d, ys) =>
    let yv := digitsToNat ys
    let year_full := if ys.length = 2 then (if yv ≥ 45 then 1900 + yv else 2000 + yv) else yv
    natToChars year_full ++ '-' :: pad2 m ++ '-' :: pad2 d

/-- `is_structural` (lines 53-74). -/
def is_structural (line : Line) : Bool :=
  let s := pyStrip line
  if s = [] then true
  else if isPageNum s then true
  else if containsL ("Change in Liabilities".data) s then true
  else if ("Present Value".data).isPrefixOf s then true
  else if (findQuarter s).elim false (fun r => decide (s.length < 80) || decide (r.1 < 5)) then true
  else if (findAmount s).elim false (fun r => decide (s.length < 80) || decide (r.1 < 5)) then true
  else if (findCategory s).isSome && (s.head? == some '(') then true
  else if s.head?.elim false isSignChar then true
  else false

/-- The lookahead test of `clean_header_area` (lines 180-190): does this raw
line count as upcoming structural data?  Blank lines and page-number lines are
passed over. -/
def futureStructural (raw : Line) : Bool :=
  let fl := pyStrip raw
  if fl = [] then false
  else if isPageNum fl then false
  else if containsL ("Change in Liabilities".data) fl || containsL ("Present Value".data) fl ||
          (findQuarter fl).isSome || (findAmount fl).isSome then true
  else if (findCategory fl).isSome && (fl.head? == some '(') then true
  else false

/-- Loop body of `clean_header_area` (lines 142-205), recursing on the
remaining raw lines; `i` is the absolute index of the current line and
`header` the accumulated header lines in reverse. -/
def cleanAux : List Line → Nat → List Line → (List Line × Nat)
  | [], i, header => (header.reverse, i)
  | raw :: rest, i, header =>
    let line := pyStrip raw
    if line = [] then cleanAux rest (i + 1) header
    else if isPageNum line && decide (17 ≤ digitsToNat line) && decide (digitsToNat line ≤ 95) then
      cleanAux rest (i + 1) header
    else if isPageNum line && decide (digitsToNat line ≤ 30) then
      cleanAux rest (i + 1) header
    else if is_structural line then cleanAux rest (i + 1) (line :: header)
    else if (rest.take 29).any futureStructural then cleanAux rest (i + 1) header
    else (header.reverse, i)

/-- `clean_header_area`: returns `(header_lines, narrative_start_index)`. -/
def clean_header_area (raw_lines : List Line) : (List Line × Nat) :=
  cleanAux raw_lines 0 []

/-- One quarterly fiscal-impact observation (the dicts appended in
`parse_header`); `amount` is the Python float modelled as `ℚ`. -/
structure Entry where
  quarter : Option Line
  amount : ℚ
  category : Option Line
  exogeneity : Option Line
deriving Repr, DecidableEq

/-- The three sections of `parse_header` (`"std"`, `"retro"`, `"pv"`). -/
inductive Sec where
  | std
  | retro
  | pv
deriving Repr, DecidableEq

/-- The mutable state of `parse_header` (lines 212-219). -/
structure HState where
  standard : List Entry
  retroactive : List Entry
  present_value : List Entry
  sec : Option Sec
  last_q : Option Line
  pending_qs : List Line
  deferred_std_qs : List Line
deriving Repr, DecidableEq

def initState : HState := ⟨[], [], [], none, none, [], []⟩

/-- Append a freshly emitted entry to the list of section `σ`
(the `target.append` / `standard.append` of the source). -/
def appendTo (σ : Sec) (e : Entry) (S : HState) : HState :=
  match σ with
  | Sec.std => { S with standard := S.standard ++ [e] }
  | Sec.retro => { S with retroactive := S.retroactive ++ [e] }
  | Sec.pv => { S with present_value := S.present_value ++ [e] }

def secList (S : HState) (σ : Sec) : List Entry :=
  match σ with
  | Sec.std => S.standard
  | Sec.retro => S.retroactive
  | Sec.pv => S.present_value

/-- Section switch for the "Change in Liabilities" headers: set the section
and clear `pending_qs` (lines 223-234). -/
def setSec (S : HState) (σ : Sec) : HState :=
  { S with sec := some σ, pending_qs := [] }

/-- Category-assignment loop over one list (lines 295-301): patch the first
entry whose `category` is `None`; the Bool reports whether it applied. -/
def applyCatList (exo cat : Line) : List Entry → (List Entry × Bool)
  | [] => ([], false)
  | e :: rest =>
    if e.category = none then
      ({ e with category := some cat, exogeneity := some exo } :: rest, true)
    else
      let r := applyCatList exo cat rest
      (e :: r.1, r.2)

/-- The category-only branch (lines 291-303): standard, then retroactive,
then present_value, stopping after the first assignment. -/
def applyCategory3 (exo cat : Line) (S : HState) : HState :=
  if (applyCatList exo cat S.standard).2 then
    { S with standard := (applyCatList exo cat S.standard).1 }
  else if (applyCatList exo cat S.retroactive).2 then
    { S with retroactive := (applyCatList exo cat S.retroactive).1 }
  else
    { S with present_value := (applyCatList exo cat S.present_value).1 }

/-- The quarter+amount branch (lines 259-269). -/
def emitBoth (S : HState) (σ : Sec) (y q : Nat) (sgn : Char) (num : Line)
    (cm : Option (Line × Line)) : HState :=
  let qs := qstr y q
  appendTo σ
    ⟨some qs, parse_sign sgn * parseDec num, cm.map (fun p => p.2), cm.map (fun p => p.1)⟩
    { S with last_q := some qs, pending_qs := [] }

/-- The amount-only branch (lines 274-290): deferred standard quarters first,
then pending quarters, then `last_q`. -/
def emitAmount (S : HState) (σ : Sec) (sgn : Char) (num : Line)
    (cm : Option (Line × Line)) : HState :=
  let val := parse_sign sgn * parseDec num
  match S.deferred_std_qs with
  | qs :: ds =>
    { S with
      standard := S.standard ++ [⟨some qs, val, cm.map (fun p => p.2), cm.map (fun p => p.1)⟩],
      deferred_std_qs := ds }
  | [] =>
    match S.pending_qs with
    | qs :: ps =>
      appendTo σ ⟨some qs, val, cm.map (fun p => p.2), cm.map (fun p => p.1)⟩
        { S with pending_qs := ps }
    | [] =>
      appendTo σ ⟨S.last_q, val, cm.map (fun p => p.2), cm.map (fun p => p.1)⟩ S

/-- Content-line processing of `parse_header` (lines 250-303): a no-op while
no section is active. -/
def processContent (S : HState) (line : Line) : HState :=
  match S.sec with
  | none => S
  | some σ =>
    match findQuarter line, findAmount line, findCategory line with
    | some qm, some am, cm => emitBoth S σ qm.2.1 qm.2.2 am.2.1 am.2.2 cm
    | some qm, none, _ => { S with pending_qs := S.pending_qs ++ [qstr qm.2.1 qm.2.2],
                                   last_q := some (qstr qm.2.1 qm.2.2) }
    | none, some am, cm => emitAmount S σ am.2.1 am.2.2 cm
    | none, none, some cm => applyCategory3 cm.1 cm.2 S
    | none, none, none => S

/-- The bare `re.match(r"Change in Liabilities:?\s*$", line)` (line 231). -/
def cilBareMatch (l : Line) : Bool :=
  match tryDrop ("Change in Liabilities".data) l with
  | none => false
  | some r =>
    match r with
    | ':' :: r2 => r2.all isWSChar
    | _ => r.all isWSChar

/-- One iteration of the `parse_header` loop (lines 221-303). -/
def stepLine (S : HState) (line0 : Line) : HState :=
  if containsL ("Change in Liabilities (excluding retroactive".data) line0 then setSec S Sec.std
  else if containsL ("Change in Liabilities (including retroactive".data) line0 then setSec S Sec.retro
  else if cilBareMatch line0 then setSec S Sec.std
  else if ("Present Value:".data).isPrefixOf line0 then
    let S1 : HState :=
      { S with
        deferred_std_qs := if S.pending_qs ≠ [] ∧ S.sec = some Sec.std then S.pending_qs else [],
        sec := some Sec.pv,
        pending_qs := [] }
    let rest := pyStrip (line0.drop ("Present Value:".data).length)
    if rest = [] then S1 else processContent S1 rest
  else processContent S line0

/-- `parse_header` (lines 211-305): fold the per-line step over the header
lines from the empty initial state. -/
def parse_header (header_lines : List Line) : HState :=
  header_lines.foldl stepLine initState

/-- `RE_SIGNED.match` (`^(Signed|Date|Effective):\s+(.+)$`) on a line,
returning group 2.  The three alternatives are mutually non-prefix.  After a
maximal whitespace run, `(.+)` takes the rest when non-empty; otherwise the
regex backtracks one whitespace character into group 2 (possible only when
the line ends in whitespace, which a stripped line never does). -/
def signedMatch (l : Line) : Option Line :=
  match tryAlt [("Signed".data), ("Date".data), ("Effective".data)] l with
  | none => none
  | some (_, r0) =>
    match r0 with
    | [] => none
    | c0 :: r =>
      if c0 = ':' then
        if r.takeWhile isWSChar = [] then none
        else if r.dropWhile isWSChar ≠ [] then some (r.dropWhile isWSChar)
        else if 2 ≤ (r.takeWhile isWSChar).length then
          some [(r.takeWhile isWSChar).getLastD ' ']
        else none
      else none

/-- One act record of `find_act_blocks`. -/
structure Act where
  act_name : Line
  signed_raw : Line
  date_signed : Line
  raw_lines : List Line
deriving Repr, DecidableEq

/-- Python list indexing with negative-index wraparound (`lines[nl]` is
reached with `nl = -1` when a signing line is the first line of the text). -/
def pyGet (lines : List Line) (i : Int) : Line :=
  if 0 ≤ i then lines.getD i.toNat [] else lines.getD (lines.length + i).toNat []

/-- `while nl > 0 and not lines[nl].strip(): nl -= 1`. -/
def skipBlankUpN (lines : List Line) : Nat → Nat
  | 0 => 0
  | n + 1 => if pyStrip (lines.getD (n + 1) []) = [] then skipBlankUpN lines n else n + 1

def skipBlankUp (lines : List Line) (i : Int) : Int :=
  if i ≤ 0 then i else (skipBlankUpN lines i.toNat : Int)

/-- The upward act-name walk (lines 98-106): step to the previous line,
skip blanks, and skip one page-number line (again skipping blanks). -/
def actNameIdx (lines : List Line) (si : Nat) : Int :=
  let nl := skipBlankUp lines ((si : Int) - 1)
  if isPageNum (pyStrip (pyGet lines nl)) then skipBlankUp lines (nl - 1) else nl

/-- The end-of-block walk for a non-final act (lines 112-121). -/
def blockEndIdx (lines : List Line) (next_si : Nat) : Int :=
  let nl := skipBlankUp lines ((next_si : Int) - 1)
  if isPageNum (pyStrip (pyGet lines nl)) then skipBlankUp lines (nl - 1) else nl

/-- The end-of-block scan for the final act (lines 122-127): first line from
`si` on that strips to `REFERENCES`, else the document length. -/
def referencesEnd (lines : List Line) (si : Nat) : Nat :=
  match (List.range' si (lines.length - si)).find?
      (fun i => pyStrip (lines.getD i []) = ("REFERENCES".data)) with
  | some i => i
  | none => lines.length

/-- Python slice `lines[a:b]` for `0 ≤ a` (negative `b` wraps). -/
def pySlice (lines : List Line) (a : Nat) (b : Int) : List Line :=
  let b' : Int := if b < 0 then (lines.length : Int) + b else b
  (lines.drop a).take (b' - (a : Int)).toNat

/-- The act record built for the `idx`-th signing line (lines 96-134). -/
def mkAct (lines : List Line) (sis : List Nat) (idx : Nat) : Act :=
  let si := sis.getD idx 0
  let name := pyStrip (pyGet lines (actNameIdx lines si))
  let date_part := (signedMatch (pyStrip (lines.getD si []))).getD []
  let endI : Int :=
    if idx + 1 < sis.length then blockEndIdx lines (sis.getD (idx + 1) 0)
    else (referencesEnd lines si : Int)
  { act_name := name,
    signed_raw := pyStrip date_part,
    date_signed := parse_date_signed date_part,
    raw_lines := pySlice lines (si + 1) endI }

/-- `find_act_blocks` (lines 80-136). -/
def find_act_blocks (text : Line) : List Act :=
  let lines := text.splitOn '\n'
  let part2 := (lines.findIdx? (containsL ("II. ACT-BY-ACT SUMMARY".data))).getD 0
  let sis := (List.range lines.length).filter
    (fun i => part2 ≤ i ∧ (signedMatch (pyStrip (lines.getD i []))).isSome)
  (List.range sis.length).map (fun idx => mkAct lines sis idx)

/-- Modelled from the spec: "an ISO date" `YYYY-MM-DD` — the formatting target
the date-parsing claims compare `parse_date_signed` against. -/
def isoDateSpec (y m d : Nat) : Line :=
  natToChars y ++ '-' :: pad2 m ++ '-' :: pad2 d

/-- `primary_classification` (lines 346-350): first entry whose category and
exogeneity are both truthy (non-`None`, non-empty); `("", "")` otherwise. -/
def primary_classification : List Entry → (Line × Line)
  | [] => ([], [])
  | e :: rest =>
    match e.category, e.exogeneity with
    | some c, some x => if c ≠ [] ∧ x ≠ [] then (c, x) else primary_classification rest
    | _, _ => primary_classification rest

/-- The call site in `main` (line 384): `primary_classification(std or retro)` —
Python `or` takes `std` when it is non-empty, else `retro`. -/
def labelClassification (std retro : List Entry) : (Line × Line) :=
  primary_classification (if std = [] then retro else std)

/-- The truthiness test of `primary_classification`'s loop body:
both `category` and `exogeneity` are non-`None` and non-empty. -/
def isClassified (e : Entry) : Bool :=
  match e.category, e.exogeneity with
  | some c, some x => !c.isEmpty && !x.isEmpty
  | _, _ => false

/-- All emitted entries of a parser state, in the scanning order
standard, retroactive, present_value. -/
def allEntries (S : HState) : List Entry :=
  S.standard ++ S.retroactive ++ S.present_value

/-- The spec's quarter pattern `^\d{4}-0[1-4]$`. -/
def matchesQuarterPat (l : Line) : Bool :=
  match l with
  | [a, b, c, d, hy, z, e] =>
    isDigitChar a && isDigitChar b && isDigitChar c && isDigitChar d &&
    (hy == '-') && (z == '0') && decide (49 ≤ e.toNat) && decide (e.toNat ≤ 52)
  | _ => false

/-- The pattern the parser actually guarantees for non-null quarters:
`^\d{1,4}-0\d$` (the year is printed from an `int`, so leading zeros in the
matched year shorten it, and the quarter digit is unconstrained). -/
def matchesLoosePat (l : Line) : Bool :=
  match l.reverse with
  | e :: z :: hy :: ds =>
    isDigitChar e && (z == '0') && (hy == '-') &&
    !ds.isEmpty && decide (ds.length ≤ 4) && ds.all isDigitChar
  | _ => false

/-- A quarter field is `None` or matches the loose pattern. -/
def quarterOK (o : Option Line) : Bool :=
  match o with
  | none => true
  | some l => matchesLoosePat l

/-- Invariant for C4: every quarter string held anywhere in the parser state
is well-formed. -/
def stateQuartersOK (S : HState) : Prop :=
  (∀ e ∈ allEntries S, quarterOK e.quarter = true) ∧
  (∀ q ∈ S.pending_qs, matchesLoosePat q = true) ∧
  quarterOK S.last_q = true ∧
  (∀ q ∈ S.deferred_std_qs, matchesLoosePat q = true)

/-- Invariant for C6: `category` and `exogeneity` are both present or both
absent. -/
def entryOK (e : Entry) : Prop := e.category.isSome = e.exogeneity.isSome

/-- All emitted entries satisfy the C6 invariant. -/
def stateOK (S : HState) : Prop := ∀ e ∈ allEntries S, entryOK e

/-- The combined parser-state invariant maintained by every `stepLine`. -/
def stateInv (S : HState) : Prop := stateQuartersOK S ∧ stateOK S

/-! ## Helper lemmas -/

/-- Evaluation helper for `parseDec`: the three Nat-level components are
supplied as kernel-checkable side conditions. -/
theorem parseDec_spec (l : Line) (a b k : Nat)
    (h1 : digitsToNat ((l.filter (fun c => c ≠ ',')).takeWhile (fun c => c ≠ '.')) = a)
    (h2 : digitsToNat (((l.filter (fun c => c ≠ ',')).dropWhile (fun c => c ≠ '.')).drop 1) = b)
    (h3 : (((l.filter (fun c => c ≠ ',')).dropWhile (fun c => c ≠ '.')).drop 1).length = k) :
    parseDec l = (a : ℚ) + (b : ℚ) / 10 ^ k := by
  simp only [parseDec]
  rw [h1, h2, h3]

theorem parse_sign_minus : parse_sign '-' = -1 := by
  unfold parse_sign
  rw [if_pos (by decide)]

theorem parse_sign_plus : parse_sign '+' = 1 := by
  unfold parse_sign
  rw [if_neg (by decide)]

/-- A line that matches none of the four section-header tests is handled by
`processContent`. -/
theorem stepLine_content (S : HState) (line : Line)
    (h1 : containsL ("Change in Liabilities (excluding retroactive".data) line = false)
    (h2 : containsL ("Change in Liabilities (including retroactive".data) line = false)
    (h3 : cilBareMatch line = false)
    (h4 : ("Present Value:".data).isPrefixOf line = false) :
    stepLine S line = processContent S line := by
  simp [stepLine, h1, h2, h3, h4]

/-- Reduction of `stepLine` on a "Present Value:" line. -/
theorem stepLine_pv (S : HState) (line : Line)
    (h1 : containsL ("Change in Liabilities (excluding retroactive".data) line = false)
    (h2 : containsL ("Change in Liabilities (including retroactive".data) line = false)
    (h3 : cilBareMatch line = false)
    (h4 : ("Present Value:".data).isPrefixOf line = true) :
    stepLine S line =
      (let S1 : HState :=
        { S with
          deferred_std_qs := if S.pending_qs ≠ [] ∧ S.sec = some Sec.std then S.pending_qs else [],
          sec := some Sec.pv,
          pending_qs := [] }
       let rest := pyStrip (line.drop ("Present Value:".data).length)
       if rest = [] then S1 else processContent S1 rest) := by
  simp [stepLine, h1, h2, h3, h4]

theorem processContent_none (S : HState) (line : Line) (h : S.sec = none) :
    processContent S line = S := by
  simp [processContent, h]

theorem processContent_qonly (S : HState) (line : Line) (σ : Sec) (p y q : Nat)
    (hs : S.sec = some σ)
    (hq : findQuarter line = some (p, y, q)) (ha : findAmount line = none) :
    processContent S line =
      { S with pending_qs := S.pending_qs ++ [qstr y q], last_q := some (qstr y q) } := by
  simp [processContent, hs, hq, ha]

theorem processContent_aonly (S : HState) (line : Line) (σ : Sec) (p : Nat) (sgn : Char)
    (num : Line) (hs : S.sec = some σ)
    (hq : findQuarter line = none) (ha : findAmount line = some (p, sgn, num)) :
    processContent S line = emitAmount S σ sgn num (findCategory line) := by
  cases hc : findCategory line <;> simp [processContent, hs, hq, ha, hc]

theorem processContent_both (S : HState) (line : Line) (σ : Sec) (p y q p2 : Nat) (sgn : Char)
    (num : Line) (hs : S.sec = some σ)
    (hq : findQuarter line = some (p, y, q)) (ha : findAmount line = some (p2, sgn, num)) :
    processContent S line = emitBoth S σ y q sgn num (findCategory line) := by
  cases hc : findCategory line <;> simp [processContent, hs, hq, ha, hc]

theorem processContent_catonly (S : HState) (line : Line) (σ : Sec) (xc : Line × Line)
    (hs : S.sec = some σ)
    (hq : findQuarter line = none) (ha : findAmount line = none)
    (hc : findCategory line = some xc) :
    processContent S line = applyCategory3 xc.1 xc.2 S := by
  simp [processContent, hs, hq, ha, hc]

theorem natToCharsAux_congr (n : Nat) : ∀ (f1 f2 : Nat), n < f1 → n < f2 →
    natToCharsAux f1 n = natToCharsAux f2 n := by
  induction n using Nat.strong_induction_on with
  | _ n ih =>
    intro f1 f2 h1 h2
    cases f1 with
    | zero => omega
    | succ g1 =>
      cases f2 with
      | zero => omega
      | succ g2 =>
        simp only [natToCharsAux]
        by_cases h : n < 10
        · simp [h]
        · simp only [h, if_false]
          rw [ih (n / 10) (by omega) g1 g2 (by omega) (by omega)]

/-- Unfolding equation for `natToChars`, free of fuel. -/
theorem natToChars_eq (n : Nat) : natToChars n =
    if n < 10 then [Char.ofNat (48 + n)]
    else natToChars (n / 10) ++ [Char.ofNat (48 + n % 10)] := by
  by_cases h : n < 10
  · simp [natToChars, natToCharsAux, h]
  · rw [if_neg h]
    show natToCharsAux (n + 1) n = _
    rw [show natToCharsAux (n + 1) n =
          if n < 10 then [Char.ofNat (48 + n)]
          else natToCharsAux n (n / 10) ++ [Char.ofNat (48 + n % 10)] from rfl,
        if_neg h]
    rw [natToCharsAux_congr (n / 10) n (n / 10 + 1) (by omega) (by omega)]
    rfl

theorem isDigitChar_ofNat (d : Nat) (h : d < 10) :
    isDigitChar (Char.ofNat (48 + d)) = true := by
  interval_cases d <;> decide

theorem natToChars_digits (n : Nat) : (natToChars n).all isDigitChar = true := by
  induction n using Nat.strong_induction_on with
  | _ n ih =>
    rw [natToChars_eq]
    by_cases h : n < 10
    · simp [h, isDigitChar_ofNat n h]
    · have h1 : n % 10 < 10 := Nat.mod_lt _ (by norm_num)
      simp [h, ih (n / 10) (by omega), isDigitChar_ofNat _ h1]

theorem natToChars_ne_nil (n : Nat) : natToChars n ≠ [] := by
  rw [natToChars_eq]
  by_cases h : n < 10 <;> simp [h]

theorem natToChars_len_le : ∀ (k n : Nat), n < 10 ^ k → 1 ≤ k →
    (natToChars n).length ≤ k := by
  intro k
  induction k with
  | zero => omega
  | succ k ih =>
    intro n h _
    rw [natToChars_eq]
    by_cases h10 : n < 10
    · simp [h10]
    · simp only [h10, if_false, List.length_append, List.length_cons, List.length_nil]
      have hk : 1 ≤ k := by
        rcases Nat.eq_zero_or_pos k with hk0 | hk0
        · subst hk0; simp at h; omega
        · exact hk0
      have hdiv : n / 10 < 10 ^ k := by
        rw [Nat.div_lt_iff_lt_mul (by norm_num : (0:Nat) < 10)]
        calc n < 10 ^ (k + 1) := h
        _ = 10 ^ k * 10 := by ring
      have := ih (n / 10) hdiv hk
      omega

/-- Every quarter string built by `qstr` from a regex match satisfies the
loose pattern. -/
theorem qstr_loose (y q : Nat) (hy : y < 10000) (hq : q < 10) :
    matchesLoosePat (qstr y q) = true := by
  have hd : natToChars q = [Char.ofNat (48 + q)] := by
    rw [natToChars_eq]
    simp [hq]
  have hpad : pad2 q = ['0', Char.ofNat (48 + q)] := by
    unfold pad2
    simp [hq, hd]
  unfold qstr
  rw [hpad]
  unfold matchesLoosePat
  simp only [List.reverse_append, List.reverse_cons, List.reverse_nil, List.nil_append,
    List.cons_append, List.append_assoc]
  simp only [isDigitChar_ofNat q hq, Bool.true_and, beq_self_eq_true]
  have hne : natToChars y ≠ [] := natToChars_ne_nil y
  have hlen : (natToChars y).length ≤ 4 :=
    natToChars_len_le 4 y (lt_of_lt_of_le hy (by norm_num)) (by norm_num)
  have hall : (natToChars y).all isDigitChar = true := natToChars_digits y
  simp [hne, hlen, hall]

theorem digit_val_le (c : Char) (h : isDigitChar c = true) : c.toNat - 48 ≤ 9 := by
  unfold isDigitChar at h
  simp only [Bool.and_eq_true, decide_eq_true_eq] at h
  omega

theorem quarterHere_bounds (l : Line) (y q : Nat) (h : quarterHere l = some (y, q)) :
    y < 10000 ∧ q < 10 := by
  rcases l with _ | ⟨d1, _ | ⟨d2, _ | ⟨d3, _ | ⟨d4, _ | ⟨cq, _ | ⟨d5, rest⟩⟩⟩⟩⟩⟩
  · exact Option.noConfusion h
  · exact Option.noConfusion h
  · exact Option.noConfusion h
  · exact Option.noConfusion h
  · exact Option.noConfusion h
  · exact Option.noConfusion h
  simp only [quarterHere] at h
  split at h
  · rename_i hcond
    simp only [Bool.and_eq_true, beq_iff_eq] at hcond
    obtain ⟨⟨⟨⟨⟨hd1, hd2⟩, hd3⟩, hd4⟩, _⟩, hd5⟩ := hcond
    have b1 := digit_val_le d1 hd1
    have b2 := digit_val_le d2 hd2
    have b3 := digit_val_le d3 hd3
    have b4 := digit_val_le d4 hd4
    have b5 := digit_val_le d5 hd5
    simp only [Option.some_inj, Prod.mk.injEq] at h
    obtain ⟨hy, hq⟩ := h
    constructor
    · rw [← hy]
      simp only [digitsToNat, List.foldl]
      omega
    · omega
  · exact absurd h (by simp)

theorem findQuarterAux_bounds : ∀ (l : Line) (pos p y q : Nat),
    findQuarterAux l pos = some (p, y, q) → y < 10000 ∧ q < 10 := by
  intro l
  induction l with
  | nil => intro pos p y q h; simp [findQuarterAux] at h
  | cons c rest ih =>
    intro pos p y q h
    simp only [findQuarterAux] at h
    cases hq : quarterHere (c :: rest) with
    | some r =>
      rw [hq] at h
      obtain ⟨y', q'⟩ := r
      simp only [Option.some_inj, Prod.mk.injEq] at h
      obtain ⟨-, h2, h3⟩ := h
      subst h2
      subst h3
      exact quarterHere_bounds _ _ _ hq
    | none =>
      rw [hq] at h
      exact ih _ _ _ _ h

theorem findQuarter_bounds (l : Line) (p y q : Nat)
    (h : findQuarter l = some (p, y, q)) : y < 10000 ∧ q < 10 :=
  findQuarterAux_bounds l 0 p y q h

theorem allEntries_appendTo (σ : Sec) (e : Entry) (S : HState) (e' : Entry)
    (he' : e' ∈ allEntries (appendTo σ e S)) : e' ∈ allEntries S ∨ e' = e := by
  cases σ <;>
    (simp only [appendTo, allEntries, List.mem_append, List.mem_cons, List.mem_singleton] at he' ⊢;
     tauto)

theorem appendTo_pending (σ : Sec) (e : Entry) (S : HState) :
    (appendTo σ e S).pending_qs = S.pending_qs := by cases σ <;> rfl

theorem appendTo_last (σ : Sec) (e : Entry) (S : HState) :
    (appendTo σ e S).last_q = S.last_q := by cases σ <;> rfl

theorem appendTo_deferred (σ : Sec) (e : Entry) (S : HState) :
    (appendTo σ e S).deferred_std_qs = S.deferred_std_qs := by cases σ <;> rfl

theorem stateInv_appendTo (σ : Sec) (e : Entry) (S : HState)
    (hq : quarterOK e.quarter = true) (hok : entryOK e) (h : stateInv S) :
    stateInv (appendTo σ e S) := by
  obtain ⟨⟨hE, hP, hL, hD⟩, hO⟩ := h
  refine ⟨⟨?_, ?_, ?_, ?_⟩, ?_⟩
  · intro e' he'
    rcases allEntries_appendTo σ e S e' he' with h1 | h1
    · exact hE e' h1
    · rw [h1]; exact hq
  · rw [appendTo_pending]; exact hP
  · rw [appendTo_last]; exact hL
  · rw [appendTo_deferred]; exact hD
  · intro e' he'
    rcases allEntries_appendTo σ e S e' he' with h1 | h1
    · exact hO e' h1
    · rw [h1]; exact hok

theorem applyCatList_mem (exo cat : Line) (l : List Entry) :
    ∀ e' ∈ (applyCatList exo cat l).1, e' ∈ l ∨
      ∃ e ∈ l, e' = { e with category := some cat, exogeneity := some exo } := by
  induction l with
  | nil => intro e' he'; simp [applyCatList] at he'
  | cons e rest ih =>
    intro e' he'
    by_cases hc : e.category = none
    · simp only [applyCatList, if_pos hc] at he'
      rcases List.mem_cons.mp he' with h | h
      · exact Or.inr ⟨e, List.mem_cons_self e rest, h⟩
      · exact Or.inl (List.mem_cons_of_mem e h)
    · simp only [applyCatList, if_neg hc] at he'
      rcases List.mem_cons.mp he' with h | h
      · exact Or.inl (h ▸ List.mem_cons_self e rest)
      · rcases ih e' h with h2 | ⟨e2, he2, hp⟩
        · exact Or.inl (List.mem_cons_of_mem e h2)
        · exact Or.inr ⟨e2, List.mem_cons_of_mem e he2, hp⟩

theorem applyCategory3_mem (exo cat : Line) (S : HState) :
    ∀ e' ∈ allEntries (applyCategory3 exo cat S), e' ∈ allEntries S ∨
      ∃ e ∈ allEntries S, e' = { e with category := some cat, exogeneity := some exo } := by
  intro e' he'
  unfold applyCategory3 at he'
  split at he'
  · simp only [allEntries, List.mem_append] at he' ⊢
    rcases he' with (h | h) | h
    · rcases applyCatList_mem exo cat S.standard e' h with h2 | ⟨e2, he2, hp⟩
      · tauto
      · exact Or.inr ⟨e2, by tauto, hp⟩
    · tauto
    · tauto
  · split at he'
    · simp only [allEntries, List.mem_append] at he' ⊢
      rcases he' with (h | h) | h
      · tauto
      · rcases applyCatList_mem exo cat S.retroactive e' h with h2 | ⟨e2, he2, hp⟩
        · tauto
        · exact Or.inr ⟨e2, by tauto, hp⟩
      · tauto
    · simp only [allEntries, List.mem_append] at he' ⊢
      rcases he' with (h | h) | h
      · tauto
      · tauto
      · rcases applyCatList_mem exo cat S.present_value e' h with h2 | ⟨e2, he2, hp⟩
        · tauto
        · exact Or.inr ⟨e2, by tauto, hp⟩

theorem applyCategory3_proj (exo cat : Line) (S : HState) :
    (applyCategory3 exo cat S).sec = S.sec ∧
    (applyCategory3 exo cat S).pending_qs = S.pending_qs ∧
    (applyCategory3 exo cat S).last_q = S.last_q ∧
    (applyCategory3 exo cat S).deferred_std_qs = S.deferred_std_qs := by
  unfold applyCategory3
  split
  · exact ⟨rfl, rfl, rfl, rfl⟩
  · split
    · exact ⟨rfl, rfl, rfl, rfl⟩
    · exact ⟨rfl, rfl, rfl, rfl⟩

theorem stateInv_applyCategory3 (exo cat : Line) (S : HState) (h : stateInv S) :
    stateInv (applyCategory3 exo cat S) := by
  obtain ⟨⟨hE, hP, hL, hD⟩, hO⟩ := h
  obtain ⟨p1, p2, p3, p4⟩ := applyCategory3_proj exo cat S
  refine ⟨⟨?_, ?_, ?_, ?_⟩, ?_⟩
  · intro e' he'
    rcases applyCategory3_mem exo cat S e' he' with h1 | ⟨e2, he2, hp⟩
    · exact hE e' h1
    · rw [hp]; exact hE e2 he2
  · rw [p2]; exact hP
  · rw [p3]; exact hL
  · rw [p4]; exact hD
  · intro e' he'
    rcases applyCategory3_mem exo cat S e' he' with h1 | ⟨e2, he2, hp⟩
    · exact hO e' h1
    · rw [hp]; unfold entryOK; simp

theorem processContent_noMatch (S : HState) (line : Line) (σ : Sec)
    (hs : S.sec = some σ)
    (hq : findQuarter line = none) (ha : findAmount line = none)
    (hc : findCategory line = none) :
    processContent S line = S := by
  simp [processContent, hs, hq, ha, hc]

theorem stateInv_emitBoth (S : HState) (σ : Sec) (y q : Nat) (sgn : Char) (num : Line)
    (cm : Option (Line × Line)) (hy : y < 10000) (hq : q < 10) (h : stateInv S) :
    stateInv (emitBoth S σ y q sgn num cm) := by
  obtain ⟨⟨hE, hP, hL, hD⟩, hO⟩ := h
  unfold emitBoth
  apply stateInv_appendTo
  · simpa [quarterOK] using qstr_loose y q hy hq
  · unfold entryOK
    cases cm <;> simp
  · refine ⟨⟨hE, by simp, ?_, hD⟩, hO⟩
    simpa [quarterOK] using qstr_loose y q hy hq

theorem stateInv_emitAmount (S : HState) (σ : Sec) (sgn : Char) (num : Line)
    (cm : Option (Line × Line)) (h : stateInv S) :
    stateInv (emitAmount S σ sgn num cm) := by
  obtain ⟨⟨hE, hP, hL, hD⟩, hO⟩ := h
  unfold emitAmount
  cases hd : S.deferred_std_qs with
  | cons qs ds =>
    simp only
    refine ⟨⟨?_, hP, hL, ?_⟩, ?_⟩
    · intro e' he'
      simp only [allEntries, List.mem_append] at he'
      rcases he' with ((h1 | h1) | h1) | h1
      · exact hE e' (by simp [allEntries, h1])
      · rw [List.mem_singleton.mp h1]
        have hmem : qs ∈ S.deferred_std_qs := by rw [hd]; exact List.mem_cons_self qs ds
        simpa [quarterOK] using hD qs hmem
      · exact hE e' (by simp [allEntries, h1])
      · exact hE e' (by simp [allEntries, h1])
    · intro q hq
      exact hD q (by rw [hd]; exact List.mem_cons_of_mem qs hq)
    · intro e' he'
      simp only [allEntries, List.mem_append] at he'
      rcases he' with ((h1 | h1) | h1) | h1
      · exact hO e' (by simp [allEntries, h1])
      · rw [List.mem_singleton.mp h1]
        unfold entryOK
        cases cm <;> simp
      · exact hO e' (by simp [allEntries, h1])
      · exact hO e' (by simp [allEntries, h1])
  | nil =>
    cases hp : S.pending_qs with
    | cons qs ps =>
      simp only
      apply stateInv_appendTo
      · have hmem : qs ∈ S.pending_qs := by rw [hp]; exact List.mem_cons_self qs ps
        simpa [quarterOK] using hP qs hmem
      · unfold entryOK
        cases cm <;> simp
      · refine ⟨⟨hE, ?_, hL, by simp⟩, hO⟩
        intro q hq
        exact hP q (by rw [hp]; exact List.mem_cons_of_mem qs hq)
    | nil =>
      simp only
      apply stateInv_appendTo
      · exact hL
      · unfold entryOK
        cases cm <;> simp
      · exact ⟨⟨hE, hP, hL, hD⟩, hO⟩

theorem stateInv_setSec (S : HState) (σ : Sec) (h : stateInv S) : stateInv (setSec S σ) := by
  obtain ⟨⟨hE, hP, hL, hD⟩, hO⟩ := h
  exact ⟨⟨hE, by simp [setSec], hL, hD⟩, hO⟩

theorem processContent_inv (S : HState) (line : Line) (h : stateInv S) :
    stateInv (processContent S line) := by
  cases hs : S.sec with
  | none => rw [processContent_none S line hs]; exact h
  | some σ =>
    cases hq : findQuarter line with
    | some qm =>
      obtain ⟨p, y, qd⟩ := qm
      obtain ⟨hy, hqd⟩ := findQuarter_bounds line p y qd hq
      cases ha : findAmount line with
      | some am =>
        obtain ⟨p2, sgn, num⟩ := am
        rw [processContent_both S line σ p y qd p2 sgn num hs hq ha]
        exact stateInv_emitBoth S σ y qd sgn num _ hy hqd h
      | none =>
        rw [processContent_qonly S line σ p y qd hs hq ha]
        obtain ⟨⟨hE, hP, hL, hD⟩, hO⟩ := h
        refine ⟨⟨hE, ?_, ?_, hD⟩, hO⟩
        · intro q hqm
          rcases List.mem_append.mp hqm with h1 | h1
          · exact hP q h1
          · rw [List.mem_singleton.mp h1]
            exact qstr_loose y qd hy hqd
        · simpa [quarterOK] using qstr_loose y qd hy hqd
    | none =>
      cases ha : findAmount line with
      | some am =>
        obtain ⟨p2, sgn, num⟩ := am
        rw [processContent_aonly S line σ p2 sgn num hs hq ha]
        exact stateInv_emitAmount S σ sgn num _ h
      | none =>
        cases hc : findCategory line with
        | some cm =>
          rw [processContent_catonly S line σ cm hs hq ha hc]
          exact stateInv_applyCategory3 cm.1 cm.2 S h
        | none =>
          rw [processContent_noMatch S line σ hs hq ha hc]
          exact h

theorem stepLine_cil1 (S : HState) (line : Line)
    (h1 : containsL ("Change in Liabilities (excluding retroactive".data) line = true) :
    stepLine S line = setSec S Sec.std := by
  simp [stepLine, h1]

theorem stepLine_cil2 (S : HState) (line : Line)
    (h1 : containsL ("Change in Liabilities (excluding retroactive".data) line = false)
    (h2 : containsL ("Change in Liabilities (including retroactive".data) line = true) :
    stepLine S line = setSec S Sec.retro := by
  simp [stepLine, h1, h2]

theorem stepLine_cil3 (S : HState) (line : Line)
    (h1 : containsL ("Change in Liabilities (excluding retroactive".data) line = false)
    (h2 : containsL ("Change in Liabilities (including retroactive".data) line = false)
    (h3 : cilBareMatch line = true) :
    stepLine S line = setSec S Sec.std := by
  simp [stepLine, h1, h2, h3]

theorem stateInv_pvState (S : HState) (h : stateInv S) :
    stateInv
      { S with
        deferred_std_qs :=
          if S.pending_qs ≠ [] ∧ S.sec = some Sec.std then S.pending_qs else [],
        sec := some Sec.pv,
        pending_qs := [] } := by
  obtain ⟨⟨hE, hP, hL, hD⟩, hO⟩ := h
  refine ⟨⟨hE, by simp, hL, ?_⟩, hO⟩
  intro q hq
  simp only at hq
  split at hq
  · exact hP q hq
  · simp at hq

theorem stepLine_inv (S : HState) (line : Line) (h : stateInv S) :
    stateInv (stepLine S line) := by
  by_cases h1 : containsL ("Change in Liabilities (excluding retroactive".data) line = true
  · rw [stepLine_cil1 S line h1]
    exact stateInv_setSec S Sec.std h
  replace h1 := eq_false_of_ne_true h1
  by_cases h2 : containsL ("Change in Liabilities (including retroactive".data) line = true
  · rw [stepLine_cil2 S line h1 h2]
    exact stateInv_setSec S Sec.retro h
  replace h2 := eq_false_of_ne_true h2
  by_cases h3 : cilBareMatch line = true
  · rw [stepLine_cil3 S line h1 h2 h3]
    exact stateInv_setSec S Sec.std h
  replace h3 := eq_false_of_ne_true h3
  by_cases h4 : ("Present Value:".data).isPrefixOf line = true
  · rw [stepLine_pv S line h1 h2 h3 h4]
    have hS1 := stateInv_pvState S h
    by_cases hrest : pyStrip (line.drop ("Present Value:".data).length) = []
    · simp only [hrest, if_pos]
      exact hS1
    · simp only [if_neg hrest]
      exact processContent_inv _ _ hS1
  replace h4 := eq_false_of_ne_true h4
  rw [stepLine_content S line h1 h2 h3 h4]
  exact processContent_inv S line h

theorem foldl_stepLine_inv : ∀ (lines : List Line) (S : HState), stateInv S →
    stateInv (lines.foldl stepLine S) := by
  intro lines
  induction lines with
  | nil => intro S h; exact h
  | cons l rest ih => intro S h; exact ih _ (stepLine_inv S l h)

theorem parse_header_inv (lines : List Line) : stateInv (parse_header lines) := by
  apply foldl_stepLine_inv
  refine ⟨⟨?_, ?_, ?_, ?_⟩, ?_⟩ <;> simp [initState, allEntries, quarterOK, stateOK]

/-! ## Claims -/

/-- C1, counterexample.  An act block consisting of the quarter-only line
`2009Q1` followed by the amount-only line `-$12.3 billion`, with no section
header, produces no Entry at all (all three lists stay empty), not one Entry
in the default `standard` section as the claim states: `parse_header` skips
every content line while `section` is `None`. -/
theorem claim_C1_counterexample :
    (parse_header (clean_header_area [("2009Q1".data), ("-$12.3 billion".data)]).1).standard = []
    ∧ (parse_header (clean_header_area [("2009Q1".data), ("-$12.3 billion".data)]).1).retroactive
        = []
    ∧ (parse_header (clean_header_area [("2009Q1".data), ("-$12.3 billion".data)]).1).present_value
        = [] := by
  decide

/-- C1, amended.  When a section is already active and both quarter queues
are empty, a quarter-only line `2009Q1` followed by an amount-only line
`-$12.3 billion` emits exactly one Entry `{quarter:"2009-01", amount:-12.3}`
into the active section's list; when no section has been set, the two lines
are ignored and no Entry is emitted. -/
theorem claim_C1 :
    (∀ (S : HState) (σ : Sec), S.sec = some σ → S.pending_qs = [] → S.deferred_std_qs = [] →
      stepLine (stepLine S ("2009Q1".data)) ("-$12.3 billion".data) =
        appendTo σ ⟨some ("2009-01".data), -(123/10 : ℚ), none, none⟩
          { S with last_q := some ("2009-01".data), pending_qs := [] }) ∧
    (∀ S : HState, S.sec = none →
      stepLine (stepLine S ("2009Q1".data)) ("-$12.3 billion".data) = S) := by
  constructor
  · intro S σ hs hp hd
    have hqs : qstr 2009 1 = ("2009-01".data) := by decide
    have hval : parse_sign '-' * parseDec ("12.3".data) = -(123/10 : ℚ) := by
      rw [parseDec_spec ("12.3".data) 12 3 1 (by decide) (by decide) (by decide), parse_sign_minus]
      norm_num
    have e1 : stepLine S ("2009Q1".data) =
        { S with pending_qs := S.pending_qs ++ [qstr 2009 1], last_q := some (qstr 2009 1) } := by
      rw [stepLine_content S ("2009Q1".data) (by decide) (by decide) (by decide) (by decide),
          processContent_qonly S ("2009Q1".data) σ 0 2009 1 hs (by decide) (by decide)]
    rw [e1,
        stepLine_content _ ("-$12.3 billion".data) (by decide) (by decide) (by decide) (by decide),
        processContent_aonly _ ("-$12.3 billion".data) σ 0 '-' ("12.3".data) (by simp [hs])
          (by decide) (by decide)]
    rw [show findCategory ("-$12.3 billion".data) = none from by decide]
    simp [emitAmount, hd, hp, hqs, hval]
  · intro S hs
    have e1 : stepLine S ("2009Q1".data) = S := by
      rw [stepLine_content S ("2009Q1".data) (by decide) (by decide) (by decide) (by decide),
          processContent_none _ _ hs]
    rw [e1,
        stepLine_content S ("-$12.3 billion".data) (by decide) (by decide) (by decide) (by decide),
        processContent_none _ _ hs]

/-- C1, witness: the amended claim instantiated with the standard section
active and empty queues. -/
theorem claim_C1_witness :
    stepLine (stepLine { initState with sec := some Sec.std } ("2009Q1".data))
        ("-$12.3 billion".data) =
      appendTo Sec.std ⟨some ("2009-01".data), -(123/10 : ℚ), none, none⟩
        { initState with
          sec := some Sec.std, last_q := some ("2009-01".data), pending_qs := [] } :=
  claim_C1.1 { initState with sec := some Sec.std } Sec.std rfl rfl rfl

/-- C2, counterexample.  `parse_date_signed` maps the two-digit year `09`
(which is `< 45`) to `2009`, not to `1909` as the claim's windowing rule
(`year < 45 → 1900 + year`) would require. -/
theorem claim_C2_counterexample :
    parse_date_signed ("1/2/09".data) = ("2009-01-02".data) ∧
    ("2009-01-02".data) ≠ ("1909-01-02".data) := by
  decide

/-- C2, amended.  For a signing date containing an `M/D/Y` substring,
`date_signed` is the ISO date with the windowing rule `year < 45 →
2000 + year`, `year ≥ 45 → 1900 + year` for two-digit years; four-digit
years pass through unchanged. -/
theorem claim_C2 (raw : Line) (m d : Nat) (ys : Line)
    (h : mdyFind raw = some (m, d, ys)) :
    (ys.length = 2 → digitsToNat ys < 45 →
      parse_date_signed raw = isoDateSpec (2000 + digitsToNat ys) m d) ∧
    (ys.length = 2 → 45 ≤ digitsToNat ys →
      parse_date_signed raw = isoDateSpec (1900 + digitsToNat ys) m d) ∧
    (ys.length = 4 →
      parse_date_signed raw = isoDateSpec (digitsToNat ys) m d) := by
  refine ⟨fun h2 hlt => ?_, fun h2 hge => ?_, fun h4 => ?_⟩
  · simp [parse_date_signed, h, h2, isoDateSpec, Nat.not_le.mpr hlt]
  · simp [parse_date_signed, h, h2, isoDateSpec, hge]
  · have hne : ¬(ys.length = 2) := by omega
    simp [parse_date_signed, h, isoDateSpec, hne]

/-- C2, witness: `3/14/85` (two-digit year `85 ≥ 45`) parses to the ISO date
`1985-03-14`. -/
theorem claim_C2_witness :
    parse_date_signed ("3/14/85".data) = isoDateSpec 1985 3 14 := by
  have h := (claim_C2 ("3/14/85".data) 3 14 ("85".data) (by decide)).2.1
    (by decide) (by decide)
  rw [show (1900 + digitsToNat ("85".data)) = 1985 from by decide] at h
  exact h

/-- `primary_classification` returns the category/exogeneity pair of the
first entry passing the truthiness test, and `("", "")` when none does. -/
theorem primary_eq_find (l : List Entry) :
    primary_classification l =
      (match l.find? isClassified with
       | some e => (e.category.getD [], e.exogeneity.getD [])
       | none => ([], [])) := by
  induction l with
  | nil => rfl
  | cons e rest ih =>
    cases hc : e.category with
    | none =>
      have hf : isClassified e = false := by simp [isClassified, hc]
      simp [primary_classification, hc, List.find?, hf, ih]
    | some c =>
      cases hx : e.exogeneity with
      | none =>
        have hf : isClassified e = false := by simp [isClassified, hc, hx]
        simp [primary_classification, hc, hx, List.find?, hf, ih]
      | some x =>
        by_cases hce : c = []
        · have hf : isClassified e = false := by simp [isClassified, hc, hx, hce]
          simp [primary_classification, hc, hx, hce, List.find?, hf, ih]
        · by_cases hxe : x = []
          · have hf : isClassified e = false := by simp [isClassified, hc, hx, hxe]
            simp [primary_classification, hc, hx, hxe, List.find?, hf, ih]
          · have hf : isClassified e = true := by
              simp [isClassified, hc, hx, List.isEmpty_iff, hce, hxe]
            simp [primary_classification, hc, hx, hce, hxe,
                  List.find?, hf]

/-- C3, counterexample.  An act with one uncategorised standard entry and one
categorised retroactive entry: `primary_classification(std or retro)` scans
only the (non-empty) standard list, so the Labels receive `("", "")`, not the
retroactive entry's classification as the claim states. -/
theorem claim_C3_counterexample :
    (parse_header [("Change in Liabilities (excluding retroactive)".data),
        ("2009Q1 -$1.0 billion".data),
        ("Change in Liabilities (including retroactive)".data),
        ("2009Q1 -$2.0 billion (Exogenous; Long-run)".data)]).standard.map Entry.category
      = [none] ∧
    (parse_header [("Change in Liabilities (excluding retroactive)".data),
        ("2009Q1 -$1.0 billion".data),
        ("Change in Liabilities (including retroactive)".data),
        ("2009Q1 -$2.0 billion (Exogenous; Long-run)".data)]).retroactive.map Entry.category
      = [some ("Long-run".data)] ∧
    labelClassification
      (parse_header [("Change in Liabilities (excluding retroactive)".data),
        ("2009Q1 -$1.0 billion".data),
        ("Change in Liabilities (including retroactive)".data),
        ("2009Q1 -$2.0 billion (Exogenous; Long-run)".data)]).standard
      (parse_header [("Change in Liabilities (excluding retroactive)".data),
        ("2009Q1 -$1.0 billion".data),
        ("Change in Liabilities (including retroactive)".data),
        ("2009Q1 -$2.0 billion (Exogenous; Long-run)".data)]).retroactive = ([], []) ∧
    (([], []) : Line × Line) ≠ (("Long-run".data), ("Exogenous".data)) := by
  refine ⟨by decide, by decide, by decide, by decide⟩

/-- C3, amended.  The category and exogeneity copied onto an act's Labels
come from the first Entry passing the truthiness test of the standard list
alone when the standard list is non-empty, and of the retroactive list only
when the standard list is empty; `("", "")` when no such entry exists. -/
theorem claim_C3 (std retro : List Entry) :
    labelClassification std retro =
      (match (if std = [] then retro else std).find? isClassified with
       | some e => (e.category.getD [], e.exogeneity.getD [])
       | none => ([], [])) := by
  unfold labelClassification
  exact primary_eq_find _

/-- C4, counterexample.  The quarter regex `(\\d{4})Q(\\d)` accepts any
digit after `Q`, so the header parser emits an Entry with quarter
`"2009-05"`, which does not match the claimed pattern `^\\d{4}-0[1-4]$`. -/
theorem claim_C4_counterexample :
    ((parse_header [("Change in Liabilities:".data), ("2009Q5 -$1.0 billion".data)]).standard.map
      Entry.quarter) = [some ("2009-05".data)] ∧
    matchesQuarterPat ("2009-05".data) = false := by
  refine ⟨by decide, by decide⟩

/-- C4, amended.  For every Entry produced by the header parser, from any
input, the quarter field is either null (amount-only line with no quarter
source) or matches `^\\d{1,4}-0\\d$`: the quarter digit is not restricted to
1..4, and the year is printed from an int, so a leading-zero year shortens. -/
theorem claim_C4 (header_lines : List Line) :
    ∀ e ∈ allEntries (parse_header header_lines), quarterOK e.quarter = true :=
  (parse_header_inv header_lines).1.1

/-- C4, witness: the single entry emitted for `2009Q5 -$1.0 billion` has a
well-formed quarter. -/
theorem claim_C4_witness :
    quarterOK ((allEntries (parse_header [("Change in Liabilities:".data),
        ("2009Q5 -$1.0 billion".data)])).get ⟨0, by decide⟩).quarter = true :=
  claim_C4 _ _ (List.get_mem _ _ _)

/-- C6: at every point during and after header parsing (every state reachable
by folding `stepLine` over a prefix of the header lines), every emitted Entry
has `category` and `exogeneity` both present or both absent. -/
theorem claim_C6 (header_lines : List Line) (k : Nat) :
    ∀ e ∈ allEntries ((header_lines.take k).foldl stepLine initState), entryOK e := by
  have h := foldl_stepLine_inv (header_lines.take k) initState
    (by refine ⟨⟨?_, ?_, ?_, ?_⟩, ?_⟩ <;> simp [initState, allEntries, quarterOK, stateOK])
  exact h.2

/-- C6, witness: the entry emitted from a categorised quarter+amount line
satisfies the pairing invariant. -/
theorem claim_C6_witness :
    entryOK ((allEntries (([("Change in Liabilities:".data),
        ("2009Q1 -$1.0 billion (Exogenous; Long-run)".data)].take 2).foldl stepLine
        initState)).get ⟨0, by decide⟩) :=
  claim_C6 _ 2 _ (List.get_mem _ _ _)

/-- C8: an amount-only line processed with a section active, both queues
empty and no quarter seen earlier (`last_q = None`) still emits an Entry,
with a null quarter, rather than dropping the amount. -/
theorem claim_C8 (S : HState) (σ : Sec) (hs : S.sec = some σ) (hp : S.pending_qs = [])
    (hd : S.deferred_std_qs = []) (hl : S.last_q = none) :
    stepLine S ("-$5.0 billion".data) = appendTo σ ⟨none, -5, none, none⟩ S := by
  have hval : parse_sign '-' * parseDec ("5.0".data) = -(5 : ℚ) := by
    rw [parseDec_spec ("5.0".data) 5 0 1 (by decide) (by decide) (by decide), parse_sign_minus]
    norm_num
  rw [stepLine_content S ("-$5.0 billion".data) (by decide) (by decide) (by decide) (by decide),
      processContent_aonly S ("-$5.0 billion".data) σ 0 '-' ("5.0".data) hs (by decide) (by decide)]
  rw [show findCategory ("-$5.0 billion".data) = none from by decide]
  simp [emitAmount, hd, hp, hl, hval]

/-- C8, witness: concrete instance in the present-value section. -/
theorem claim_C8_witness :
    stepLine { initState with sec := some Sec.pv } ("-$5.0 billion".data) =
      appendTo Sec.pv ⟨none, -5, none, none⟩ { initState with sec := some Sec.pv } :=
  claim_C8 { initState with sec := some Sec.pv } Sec.pv rfl rfl rfl rfl

/-- C5: from a standard-section state with pending quarters
`["2010-01","2010-02"]`, the line `Present Value: +$4.0 billion` moves the
pending quarters into the deferred-standard queue, switches the section to
present_value, reprocesses the trailing amount as the first content line of
the new section — pairing it with the first deferred quarter `"2010-01"` and
emitting it into the standard list (leaving `"2010-02"` deferred) — and the
next `+$4.0 billion`-only line is likewise emitted into the standard list
with quarter `"2010-02"`, not into the present-value list. -/
theorem claim_C5 (S : HState)
    (hs : S.sec = some Sec.std)
    (hp : S.pending_qs = [("2010-01".data), ("2010-02".data)])
    (_hd : S.deferred_std_qs = []) :
    stepLine S ("Present Value: +$4.0 billion".data) =
      { S with
        standard := S.standard ++ [⟨some ("2010-01".data), 4, none, none⟩],
        sec := some Sec.pv,
        pending_qs := [],
        deferred_std_qs := [("2010-02".data)] } ∧
    stepLine (stepLine S ("Present Value: +$4.0 billion".data)) ("+$4.0 billion".data) =
      { S with
        standard := S.standard ++ [⟨some ("2010-01".data), 4, none, none⟩,
                                   ⟨some ("2010-02".data), 4, none, none⟩],
        sec := some Sec.pv,
        pending_qs := [],
        deferred_std_qs := [] } := by
  have hval : parse_sign '+' * parseDec ("4.0".data) = (4 : ℚ) := by
    rw [parseDec_spec ("4.0".data) 4 0 1 (by decide) (by decide) (by decide), parse_sign_plus]
    norm_num
  have e1 : stepLine S ("Present Value: +$4.0 billion".data) =
      { S with
        standard := S.standard ++ [⟨some ("2010-01".data), 4, none, none⟩],
        sec := some Sec.pv,
        pending_qs := [],
        deferred_std_qs := [("2010-02".data)] } := by
    rw [stepLine_pv S ("Present Value: +$4.0 billion".data)
        (by decide) (by decide) (by decide) (by decide)]
    simp only [hp, hs]
    rw [show pyStrip (("Present Value: +$4.0 billion".data).drop
        ("Present Value:".data).length) = ("+$4.0 billion".data) from by decide]
    rw [if_neg (by decide), if_pos (by exact ⟨by decide, trivial⟩)]
    rw [processContent_aonly _ ("+$4.0 billion".data) Sec.pv 0 '+' ("4.0".data) rfl
        (by decide) (by decide)]
    rw [show findCategory ("+$4.0 billion".data) = none from by decide]
    simp [emitAmount, hval]
  refine ⟨e1, ?_⟩
  rw [e1]
  rw [stepLine_content _ ("+$4.0 billion".data) (by decide) (by decide) (by decide) (by decide),
      processContent_aonly _ ("+$4.0 billion".data) Sec.pv 0 '+' ("4.0".data) rfl
        (by decide) (by decide)]
  rw [show findCategory ("+$4.0 billion".data) = none from by decide]
  simp [emitAmount, hval]

/-- C5, witness: the scenario run from an otherwise-empty state. -/
theorem claim_C5_witness :
    stepLine (stepLine
        { initState with
          sec := some Sec.std,
          pending_qs := [("2010-01".data), ("2010-02".data)] }
        ("Present Value: +$4.0 billion".data)) ("+$4.0 billion".data) =
      { initState with
        standard := [⟨some ("2010-01".data), 4, none, none⟩,
                     ⟨some ("2010-02".data), 4, none, none⟩],
        sec := some Sec.pv,
        pending_qs := [],
        deferred_std_qs := [] } :=
  (claim_C5 _ rfl rfl rfl).2

theorem zip_self_eq (l : List Entry) : ∀ p ∈ l.zip l, p.2 = p.1 := by
  induction l with
  | nil => intro p hp; simp at hp
  | cons e rest ih =>
    intro p hp
    rcases List.mem_cons.mp hp with h | h
    · rw [h]
    · exact ih p h

theorem countP_zip_self (l : List Entry) :
    (l.zip l).countP (fun p => decide (p.2 ≠ p.1)) = 0 := by
  refine List.countP_eq_zero.mpr ?_
  intro p hp
  simp [zip_self_eq l p hp]

/-- Shape of one `applyCatList` pass: same length, each position unchanged or
patched (only the first `category = none` position), at most one change, and
the list is returned unchanged when the flag is false. -/
theorem applyCatList_zip (exo cat : Line) (l : List Entry) :
    (applyCatList exo cat l).1.length = l.length ∧
    (∀ p ∈ l.zip (applyCatList exo cat l).1, p.2 = p.1 ∨
      (p.1.category = none ∧
       p.2 = { p.1 with category := some cat, exogeneity := some exo })) ∧
    ((l.zip (applyCatList exo cat l).1).countP (fun p => decide (p.2 ≠ p.1))) ≤ 1 ∧
    ((applyCatList exo cat l).2 = false → (applyCatList exo cat l).1 = l) := by
  induction l with
  | nil => exact ⟨rfl, by simp, by simp [applyCatList], fun _ => rfl⟩
  | cons e rest ih =>
    obtain ⟨ihlen, ihmem, ihcnt, ihflag⟩ := ih
    by_cases hc : e.category = none
    · simp only [applyCatList, if_pos hc]
      refine ⟨by simp, ?_, ?_, ?_⟩
      · intro p hp
        rcases List.mem_cons.mp hp with h | h
        · rw [h]; exact Or.inr ⟨hc, rfl⟩
        · exact Or.inl (zip_self_eq rest p h)
      · rw [show (e :: rest).zip ({ e with category := some cat, exogeneity := some exo } :: rest)
            = (e, { e with category := some cat, exogeneity := some exo }) :: rest.zip rest
          from rfl]
        rw [List.countP_cons, countP_zip_self rest]
        split <;> omega
      · intro hfl; exact absurd hfl (by simp)
    · simp only [applyCatList, if_neg hc]
      refine ⟨by simpa using ihlen, ?_, ?_, ?_⟩
      · intro p hp
        rw [show (e :: rest).zip (e :: (applyCatList exo cat rest).1)
            = (e, e) :: rest.zip (applyCatList exo cat rest).1 from rfl] at hp
        rcases List.mem_cons.mp hp with h | h
        · rw [h]; exact Or.inl rfl
        · exact ihmem p h
      · rw [show (e :: rest).zip (e :: (applyCatList exo cat rest).1)
            = (e, e) :: rest.zip (applyCatList exo cat rest).1 from rfl,
            List.countP_cons]
        simpa using ihcnt
      · intro hfl
        rw [ihflag hfl]

theorem applyCategory3_zip (exo cat : Line) (S : HState) :
    (allEntries (applyCategory3 exo cat S)).length = (allEntries S).length ∧
    (∀ p ∈ (allEntries S).zip (allEntries (applyCategory3 exo cat S)), p.2 = p.1 ∨
      (p.1.category = none ∧
       p.2 = { p.1 with category := some cat, exogeneity := some exo })) ∧
    (((allEntries S).zip (allEntries (applyCategory3 exo cat S))).countP
      (fun p => decide (p.2 ≠ p.1))) ≤ 1 := by
  obtain ⟨len1, mem1, cnt1, flag1⟩ := applyCatList_zip exo cat S.standard
  obtain ⟨len2, mem2, cnt2, flag2⟩ := applyCatList_zip exo cat S.retroactive
  obtain ⟨len3, mem3, cnt3, flag3⟩ := applyCatList_zip exo cat S.present_value
  unfold applyCategory3
  split
  · have hz : (allEntries S).zip (allEntries
        { S with standard := (applyCatList exo cat S.standard).1 })
        = (S.standard.zip (applyCatList exo cat S.standard).1 ++
           S.retroactive.zip S.retroactive) ++ S.present_value.zip S.present_value := by
      simp only [allEntries]
      rw [List.zip_append (by simp [len1]), List.zip_append len1.symm]
    refine ⟨by simp [allEntries, len1], ?_, ?_⟩
    · intro p hp
      rw [hz] at hp
      rcases List.mem_append.mp hp with h | h
      · rcases List.mem_append.mp h with h2 | h2
        · exact mem1 p h2
        · exact Or.inl (zip_self_eq _ p h2)
      · exact Or.inl (zip_self_eq _ p h)
    · rw [hz, List.countP_append, List.countP_append, countP_zip_self, countP_zip_self]
      omega
  · split
    · rename_i hf1 _
      have hstd : (applyCatList exo cat S.standard).1 = S.standard :=
        flag1 (by simpa using hf1)
      have hz : (allEntries S).zip (allEntries
          { S with retroactive := (applyCatList exo cat S.retroactive).1 })
          = (S.standard.zip S.standard ++
             S.retroactive.zip (applyCatList exo cat S.retroactive).1) ++
            S.present_value.zip S.present_value := by
        simp only [allEntries]
        rw [List.zip_append (by simp [len2]), List.zip_append rfl]
      refine ⟨by simp [allEntries, len2], ?_, ?_⟩
      · intro p hp
        rw [hz] at hp
        rcases List.mem_append.mp hp with h | h
        · rcases List.mem_append.mp h with h2 | h2
          · exact Or.inl (zip_self_eq _ p h2)
          · exact mem2 p h2
        · exact Or.inl (zip_self_eq _ p h)
      · rw [hz, List.countP_append, List.countP_append, countP_zip_self, countP_zip_self]
        omega
    · have hz : (allEntries S).zip (allEntries
          { S with present_value := (applyCatList exo cat S.present_value).1 })
          = (S.standard.zip S.standard ++ S.retroactive.zip S.retroactive) ++
            S.present_value.zip (applyCatList exo cat S.present_value).1 := by
        simp only [allEntries]
        rw [List.zip_append (by simp), List.zip_append rfl]
      refine ⟨by simp [allEntries, len3], ?_, ?_⟩
      · intro p hp
        rw [hz] at hp
        rcases List.mem_append.mp hp with h | h
        · rcases List.mem_append.mp h with h2 | h2
          · exact Or.inl (zip_self_eq _ p h2)
          · exact Or.inl (zip_self_eq _ p h2)
        · exact mem3 p h
      · rw [hz, List.countP_append, List.countP_append, countP_zip_self, countP_zip_self]
        omega

/-- C10: a category-only header line (no quarter, no amount, no section
header) changes at most one already-emitted Entry across the three lists, and
only by filling category and exogeneity that were both absent; an Entry whose
category is present is never overwritten, and every entry's quarter and
amount — and all other entries — are unchanged.  The `stateOK` hypothesis is
the C6 invariant, which holds of every reachable parser state. -/
theorem claim_C10 (S : HState) (line : Line) (xc : Line × Line)
    (h1 : containsL ("Change in Liabilities (excluding retroactive".data) line = false)
    (h2 : containsL ("Change in Liabilities (including retroactive".data) line = false)
    (h3 : cilBareMatch line = false)
    (h4 : ("Present Value:".data).isPrefixOf line = false)
    (hq : findQuarter line = none) (ha : findAmount line = none)
    (hc : findCategory line = some xc)
    (hok : stateOK S) :
    (allEntries (stepLine S line)).length = (allEntries S).length ∧
    (∀ p ∈ (allEntries S).zip (allEntries (stepLine S line)), p.2 = p.1 ∨
      (p.1.category = none ∧ p.1.exogeneity = none ∧
       p.2 = { p.1 with category := some xc.2, exogeneity := some xc.1 })) ∧
    (((allEntries S).zip (allEntries (stepLine S line))).countP
      (fun p => decide (p.2 ≠ p.1))) ≤ 1 := by
  rw [stepLine_content S line h1 h2 h3 h4]
  cases hsec : S.sec with
  | none =>
    rw [processContent_none S line hsec]
    refine ⟨rfl, fun p hp => Or.inl (zip_self_eq _ p hp), ?_⟩
    rw [countP_zip_self]
    omega
  | some σ =>
    rw [processContent_catonly S line σ xc hsec hq ha hc]
    obtain ⟨hlen, hmem, hcnt⟩ := applyCategory3_zip xc.1 xc.2 S
    refine ⟨hlen, ?_, hcnt⟩
    intro p hp
    obtain ⟨a, b⟩ := p
    rcases hmem (a, b) hp with h | ⟨hcat, hpatch⟩
    · exact Or.inl h
    · refine Or.inr ⟨hcat, ?_, hpatch⟩
      have ha1 : a ∈ allEntries S := (List.of_mem_zip hp).1
      have hOK := hok a ha1
      unfold entryOK at hOK
      rw [hcat] at hOK
      simp only [Option.isSome_none] at hOK
      exact Option.not_isSome_iff_eq_none.mp (by rw [← hOK]; simp)

/-- C10, witness: one uncategorised entry, one category-only line. -/
theorem claim_C10_witness :
    (allEntries (stepLine
        { initState with standard := [⟨some ("2009-01".data), 1, none, none⟩] }
        ("(Endogenous; Countercyclical)".data))).length =
      (allEntries
        { initState with standard := [⟨some ("2009-01".data), 1, none, none⟩] }).length :=
  (claim_C10 { initState with standard := [⟨some ("2009-01".data), 1, none, none⟩] }
    ("(Endogenous; Countercyclical)".data) (("Endogenous".data), ("Countercyclical".data))
    (by decide) (by decide) (by decide) (by decide) (by decide) (by decide) (by decide)
    (by simp only [stateOK, entryOK]; decide)).1

theorem dropWhile_head?_not (p : Char → Bool) (l : Line) :
    ∀ c, (l.dropWhile p).head? = some c → p c = false := by
  induction l with
  | nil => intro c hc; simp [List.dropWhile] at hc
  | cons a t ih =>
    intro c hc
    by_cases hp : p a
    · rw [List.dropWhile_cons_of_pos hp] at hc
      exact ih c hc
    · rw [List.dropWhile_cons_of_neg hp] at hc
      simp only [List.head?_cons, Option.some_inj] at hc
      rw [← hc]
      exact eq_false_of_ne_true hp

/-- The stripped line is a prefix of the leading-whitespace-dropped line. -/
theorem pyStrip_prefix (l : Line) : pyStrip l <+: l.dropWhile isWSChar := by
  unfold pyStrip
  generalize l.dropWhile isWSChar = A
  have h := List.dropWhile_suffix (l := A.reverse) isWSChar
  have h2 := List.reverse_prefix.mpr h
  rwa [List.reverse_reverse] at h2

theorem pyStrip_head?_not (l : Line) :
    ∀ c, (pyStrip l).head? = some c → isWSChar c = false := by
  intro c hc
  obtain ⟨t, ht⟩ := pyStrip_prefix l
  cases hB : pyStrip l with
  | nil => rw [hB] at hc; simp at hc
  | cons b B' =>
    rw [hB] at hc
    simp only [List.head?_cons, Option.some_inj] at hc
    apply dropWhile_head?_not isWSChar l c
    rw [← ht, hB, hc]
    rfl

theorem pyStrip_getLast?_not (l : Line) :
    ∀ c, (pyStrip l).getLast? = some c → isWSChar c = false := by
  intro c hc
  unfold pyStrip at hc
  rw [List.getLast?_reverse] at hc
  exact dropWhile_head?_not isWSChar _ c hc

/-- A line with no leading and no trailing whitespace strips to itself. -/
theorem pyStrip_eq_self (l : Line)
    (h1 : ∀ c, l.head? = some c → isWSChar c = false)
    (h2 : ∀ c, l.getLast? = some c → isWSChar c = false) :
    pyStrip l = l := by
  have e1 : l.dropWhile isWSChar = l := by
    cases hl : l with
    | nil => rfl
    | cons a t =>
      have := h1 a (by rw [hl]; rfl)
      rw [List.dropWhile_cons_of_neg (by simp [this])]
  have e2 : l.reverse.dropWhile isWSChar = l.reverse := by
    cases hr : l.reverse with
    | nil => rfl
    | cons a t =>
      have ha : l.getLast? = some a := by
        rw [← List.head?_reverse, hr]
        rfl
      have := h2 a ha
      rw [List.dropWhile_cons_of_neg (by simp [this])]
  unfold pyStrip
  rw [e1, e2, List.reverse_reverse]

theorem pyStrip_idem (l : Line) : pyStrip (pyStrip l) = pyStrip l :=
  pyStrip_eq_self (pyStrip l) (pyStrip_head?_not l) (pyStrip_getLast?_not l)

/-- `cleanAux` is the canonical run shifted by the starting index and with the
accumulated header prepended. -/
theorem cleanAux_general : ∀ (raws : List Line) (i : Nat) (acc : List Line),
    cleanAux raws i acc =
      (acc.reverse ++ (cleanAux raws 0 []).1, (cleanAux raws 0 []).2 + i) := by
  intro raws
  induction raws with
  | nil => intro i acc; simp [cleanAux]
  | cons raw rest ih =>
    intro i acc
    by_cases c1 : pyStrip raw = []
    · rw [show cleanAux (raw :: rest) i acc = cleanAux rest (i + 1) acc from by
          simp [cleanAux, c1],
        show cleanAux (raw :: rest) 0 [] = cleanAux rest 1 [] from by
          simp [cleanAux, c1],
        ih (i + 1) acc, ih 1 [], Prod.mk.injEq]
      exact ⟨by simp, by omega⟩
    · by_cases c2 : (isPageNum (pyStrip raw) && decide (17 ≤ digitsToNat (pyStrip raw)) &&
          decide (digitsToNat (pyStrip raw) ≤ 95)) = true
      · rw [show cleanAux (raw :: rest) i acc = cleanAux rest (i + 1) acc from by
            simp [cleanAux, c1, c2],
          show cleanAux (raw :: rest) 0 [] = cleanAux rest 1 [] from by
            simp [cleanAux, c1, c2],
          ih (i + 1) acc, ih 1 [], Prod.mk.injEq]
        exact ⟨by simp, by omega⟩
      · by_cases c3 : (isPageNum (pyStrip raw) &&
            decide (digitsToNat (pyStrip raw) ≤ 30)) = true
        · rw [show cleanAux (raw :: rest) i acc = cleanAux rest (i + 1) acc from by
              simp [cleanAux, c1, c2, c3],
            show cleanAux (raw :: rest) 0 [] = cleanAux rest 1 [] from by
              simp [cleanAux, c1, c2, c3],
            ih (i + 1) acc, ih 1 [], Prod.mk.injEq]
          exact ⟨by simp, by omega⟩
        · by_cases c4 : is_structural (pyStrip raw) = true
          · rw [show cleanAux (raw :: rest) i acc =
                  cleanAux rest (i + 1) (pyStrip raw :: acc) from by
                simp [cleanAux, c1, c2, c3, c4],
              show cleanAux (raw :: rest) 0 [] = cleanAux rest 1 [pyStrip raw] from by
                simp [cleanAux, c1, c2, c3, c4],
              ih (i + 1) (pyStrip raw :: acc), ih 1 [pyStrip raw], Prod.mk.injEq]
            exact ⟨by simp, by omega⟩
          · by_cases c5 : ((rest.take 29).any futureStructural) = true
            · rw [show cleanAux (raw :: rest) i acc = cleanAux rest (i + 1) acc from by
                  simp [cleanAux, c1, c2, c3, c4, c5],
                show cleanAux (raw :: rest) 0 [] = cleanAux rest 1 [] from by
                  simp [cleanAux, c1, c2, c3, c4, c5],
                ih (i + 1) acc, ih 1 [], Prod.mk.injEq]
              exact ⟨by simp, by omega⟩
            · rw [show cleanAux (raw :: rest) i acc = (acc.reverse, i) from by
                  simp [cleanAux, c1, c2, c3, c4, c5],
                show cleanAux (raw :: rest) 0 [] = ([], 0) from by
                  simp [cleanAux, c1, c2, c3, c4, c5], Prod.mk.injEq]
              exact ⟨by simp, by omega⟩

theorem cleanAux_no_small : ∀ (raws : List Line) (i : Nat) (acc : List Line),
    (∀ s ∈ acc, isPageNum s = true → digitsToNat s ≤ 30 → False) →
    ∀ s ∈ (cleanAux raws i acc).1, isPageNum s = true → digitsToNat s ≤ 30 → False := by
  intro raws
  induction raws with
  | nil =>
    intro i acc hacc s hs
    simp only [cleanAux, List.mem_reverse] at hs
    exact hacc s hs
  | cons raw rest ih =>
    intro i acc hacc s hs
    by_cases c1 : pyStrip raw = []
    · rw [show cleanAux (raw :: rest) i acc = cleanAux rest (i + 1) acc from by
        simp [cleanAux, c1]] at hs
      exact ih (i + 1) acc hacc s hs
    · by_cases c2 : (isPageNum (pyStrip raw) && decide (17 ≤ digitsToNat (pyStrip raw)) &&
          decide (digitsToNat (pyStrip raw) ≤ 95)) = true
      · rw [show cleanAux (raw :: rest) i acc = cleanAux rest (i + 1) acc from by
          simp [cleanAux, c1, c2]] at hs
        exact ih (i + 1) acc hacc s hs
      · by_cases c3 : (isPageNum (pyStrip raw) &&
            decide (digitsToNat (pyStrip raw) ≤ 30)) = true
        · rw [show cleanAux (raw :: rest) i acc = cleanAux rest (i + 1) acc from by
            simp [cleanAux, c1, c2, c3]] at hs
          exact ih (i + 1) acc hacc s hs
        · by_cases c4 : is_structural (pyStrip raw) = true
          · rw [show cleanAux (raw :: rest) i acc =
                cleanAux rest (i + 1) (pyStrip raw :: acc) from by
              simp [cleanAux, c1, c2, c3, c4]] at hs
            refine ih (i + 1) (pyStrip raw :: acc) ?_ s hs
            intro s2 hs2 hpn hle
            rcases List.mem_cons.mp hs2 with h | h
            · subst h
              exact c3 (by simp [hpn, hle])
            · exact hacc s2 h hpn hle
          · by_cases c5 : ((rest.take 29).any futureStructural) = true
            · rw [show cleanAux (raw :: rest) i acc = cleanAux rest (i + 1) acc from by
                simp [cleanAux, c1, c2, c3, c4, c5]] at hs
              exact ih (i + 1) acc hacc s hs
            · rw [show cleanAux (raw :: rest) i acc = (acc.reverse, i) from by
                simp [cleanAux, c1, c2, c3, c4, c5]] at hs
              simp only [List.mem_reverse] at hs
              exact hacc s hs

/-- C9.  (1) No line that is purely a 1-3 digit number with value at most 30
ever appears in `header_lines`, even below the documented 17-95 page range.
(2) A standalone 1-3 digit number above 95 is kept in `header_lines` as
structural: the classifier prepends it to the header and moves on. -/
theorem claim_C9 :
    (∀ (raw_lines : List Line), ∀ s ∈ (clean_header_area raw_lines).1,
      isPageNum s = true → digitsToNat s ≤ 30 → False) ∧
    (∀ (raw : Line) (rest : List Line), isPageNum (pyStrip raw) = true →
      95 < digitsToNat (pyStrip raw) →
      clean_header_area (raw :: rest) =
        (pyStrip raw :: (clean_header_area rest).1, (clean_header_area rest).2 + 1)) := by
  constructor
  · intro raws s hs
    exact cleanAux_no_small raws 0 [] (by simp) s hs
  · intro raw rest hp h95
    have c1 : ¬ pyStrip raw = [] := by
      intro h
      rw [h] at hp
      exact absurd hp (by decide)
    have c2 : (isPageNum (pyStrip raw) && decide (17 ≤ digitsToNat (pyStrip raw)) &&
        decide (digitsToNat (pyStrip raw) ≤ 95)) = false := by
      have hn : ¬ (digitsToNat (pyStrip raw) ≤ 95) := by omega
      simp [hn]
    have c3 : (isPageNum (pyStrip raw) && decide (digitsToNat (pyStrip raw) ≤ 30)) = false := by
      have hn : ¬ (digitsToNat (pyStrip raw) ≤ 30) := by omega
      simp [hn]
    have c4 : is_structural (pyStrip raw) = true := by
      simp only [is_structural]
      rw [pyStrip_idem]
      simp [c1, hp]
    show cleanAux (raw :: rest) 0 [] = _
    rw [show cleanAux (raw :: rest) 0 [] = cleanAux rest 1 [pyStrip raw] from by
        simp [cleanAux, c1, c2, c3, c4],
      cleanAux_general rest 1 [pyStrip raw]]
    simp [clean_header_area]

/-- C9, witness: the bare number `100` (outside the 17-95 page range) is kept
in the header. -/
theorem claim_C9_witness :
    clean_header_area [("100".data)] = ([("100".data)], 1) := by
  have h := claim_C9.2 ("100".data) [] (by decide) (by decide)
  rw [h]
  decide

theorem tryAlt_suffix (ws : List Line) (l : Line) (w r : Line)
    (h : tryAlt ws l = some (w, r)) : r <:+ l := by
  induction ws with
  | nil => simp [tryAlt] at h
  | cons w0 rest ih =>
    simp only [tryAlt] at h
    cases hd : tryDrop w0 l with
    | some r0 =>
      rw [hd] at h
      simp only [Option.some_inj, Prod.mk.injEq] at h
      obtain ⟨-, hr⟩ := h
      unfold tryDrop at hd
      split at hd
      · simp only [Option.some_inj] at hd
        rw [← hr, ← hd]
        exact List.drop_suffix w0.length l
      · exact absurd hd (by simp)
    | none =>
      rw [hd] at h
      exact ih h

/-- Group 2 of a successful `RE_SIGNED` match on a line with no trailing
whitespace is itself stripped. -/
theorem signedMatch_stripped (l : Line) (g2 : Line)
    (h2 : ∀ c, l.getLast? = some c → isWSChar c = false)
    (h : signedMatch l = some g2) :
    pyStrip g2 = g2 := by
  cases ha : tryAlt [("Signed".data), ("Date".data), ("Effective".data)] l with
  | none =>
    rw [show signedMatch l = none from by unfold signedMatch; rw [ha]] at h
    simp at h
  | some p =>
    obtain ⟨w, r0⟩ := p
    have hr0 : r0 <:+ l := tryAlt_suffix _ l w r0 ha
    cases r0 with
    | nil =>
      rw [show signedMatch l = none from by unfold signedMatch; rw [ha]] at h
      simp at h
    | cons c0 r =>
      have hred : signedMatch l =
          (if c0 = ':' then
            if r.takeWhile isWSChar = [] then none
            else if r.dropWhile isWSChar ≠ [] then some (r.dropWhile isWSChar)
            else if 2 ≤ (r.takeWhile isWSChar).length then
              some [(r.takeWhile isWSChar).getLastD ' ']
            else none
          else none) := by
        unfold signedMatch
        rw [ha]
      rw [hred] at h
      have hrl : r <:+ l := (List.suffix_cons c0 r).trans hr0
      by_cases hc0 : c0 = ':'
      swap
      · rw [if_neg hc0] at h
        simp at h
      · rw [if_pos hc0] at h
        by_cases hws : r.takeWhile isWSChar = []
        · rw [if_pos hws] at h
          simp at h
        · rw [if_neg hws] at h
          by_cases hg2 : r.dropWhile isWSChar ≠ []
          · rw [if_pos hg2, Option.some_inj] at h
            subst h
            apply pyStrip_eq_self
            · exact dropWhile_head?_not isWSChar r
            · intro c hc
              obtain ⟨t, ht⟩ := (List.dropWhile_suffix isWSChar).trans hrl
              apply h2 c
              rw [← ht, List.getLast?_append, hc]
              rfl
          · exfalso
            have hg2nil : r.dropWhile isWSChar = [] := by
              by_contra hcon
              exact hg2 hcon
            have hall : ∀ x ∈ r, isWSChar x = true := List.dropWhile_eq_nil_iff.mp hg2nil
            have hrne : r ≠ [] := by
              intro hn
              subst hn
              exact hws rfl
            have hcl : r.getLast? = some (r.getLast hrne) := List.getLast?_eq_getLast r hrne
            have hfalse : isWSChar (r.getLast hrne) = false := by
              apply h2
              obtain ⟨t, ht⟩ := hrl
              rw [← ht, List.getLast?_append, hcl]
              rfl
            have htrue : isWSChar (r.getLast hrne) = true :=
              hall _ (List.getLast_mem hrne)
            rw [htrue] at hfalse
            exact absurd hfalse (by simp)

theorem mkAct_signed_raw (lines : List Line) (sis : List Nat) (idx : Nat) :
    (mkAct lines sis idx).signed_raw =
      pyStrip ((signedMatch (pyStrip (lines.getD (sis.getD idx 0) []))).getD []) := rfl

theorem mkAct_date_signed (lines : List Line) (sis : List Nat) (idx : Nat) :
    (mkAct lines sis idx).date_signed =
      parse_date_signed ((signedMatch (pyStrip (lines.getD (sis.getD idx 0) []))).getD []) := rfl

/-- The date-part value extracted by `mkAct` is already stripped. -/
theorem datePart_stripped (lines : List Line) (si : Nat) :
    pyStrip ((signedMatch (pyStrip (lines.getD si []))).getD []) =
      (signedMatch (pyStrip (lines.getD si []))).getD [] := by
  cases hsm : signedMatch (pyStrip (lines.getD si [])) with
  | none => rfl
  | some g2 =>
    simp only [Option.getD_some]
    exact signedMatch_stripped _ g2 (pyStrip_getLast?_not _) hsm

/-- C7: for every act produced by `find_act_blocks` whose signing-line date
text contains no M/D/Y substring, `date_signed` equals `signed_raw`
verbatim — the date parse degrades to the raw text without error. -/
theorem claim_C7 (text : Line) :
    ∀ act ∈ find_act_blocks text, mdyFind act.signed_raw = none →
      act.date_signed = act.signed_raw := by
  intro act hact hmdy
  unfold find_act_blocks at hact
  obtain ⟨idx, -, heq⟩ := List.mem_map.mp hact
  subst heq
  rw [mkAct_signed_raw, datePart_stripped] at hmdy
  rw [mkAct_signed_raw, datePart_stripped, mkAct_date_signed]
  unfold parse_date_signed
  rw [hmdy, datePart_stripped]

/-- C7, witness: an act signed "April 2, 1948" (no M/D/Y substring) keeps the
raw text in `date_signed`. -/
theorem claim_C7_witness :
    ((find_act_blocks
        ("II. ACT-BY-ACT SUMMARY\nRevenue Act\nSigned: April 2, 1948\nbody\nREFERENCES".data)).get
      ⟨0, by decide⟩).date_signed =
    ((find_act_blocks
        ("II. ACT-BY-ACT SUMMARY\nRevenue Act\nSigned: April 2, 1948\nbody\nREFERENCES".data)).get
      ⟨0, by decide⟩).signed_raw :=
  claim_C7 _ _ (List.get_mem _ _ _) (by decide)

end RR
